import Mathlib

/-!
# Verification of the decomposition-tree hierarchy builder and renderer

Shallow embedding of the core of `grosz99/streamlit_decomp_tree`:

* `calculate_metric_du`, `get_color_du`, `build_hierarchy_du` embed the
  functions of `data_utils.py` (identical code appears in
  `streamlit_ncc_sis.py`);
* `calculate_metric_app`, `get_color_app`, `build_hierarchy_app` embed the
  functions of `streamlit_app.py`;
* the renderer-side layout and formatting functions embed the JavaScript of
  `streamlit_app.py` / `tree_visualization.py`.

A pandas `DataFrame` is modelled as a `List Row`; a row carries the numeric
measure columns used by the code (`NCC`, `NCC_PY`, `OTP`, `Trips`) as exact
rationals and its categorical dimension columns as a function
`String → Option String`, with `none` standing for a null/NaN cell.
Floating-point arithmetic is modelled by exact rational arithmetic.
-/

/-- A row of the tabular dataset: dimension columns (with `none` for a
null/NaN cell) plus the numeric measure columns the code reads. -/
structure Row where
  dims : String → Option String
  NCC : ℚ
  NCC_PY : ℚ
  OTP : ℚ
  Trips : ℚ

/-- Sum of a numeric column over a dataframe (`df[col].sum()`). -/
def colSum (f : Row → ℚ) (df : List Row) : ℚ :=
  (df.map f).sum

/-- Round a rational to the nearest integer, ties to even; models Python
`round` on an exact value. -/
def roundHalfEven (q : ℚ) : ℤ :=
  if q < ⌊q⌋ + 1/2 then ⌊q⌋
  else if (⌊q⌋ : ℚ) + 1/2 < q then ⌊q⌋ + 1
  else if 2 ∣ ⌊q⌋ then ⌊q⌋ else ⌊q⌋ + 1

/-- Python `round(q, d)`. -/
def pyRound (d : ℕ) (q : ℚ) : ℚ :=
  (roundHalfEven (q * 10 ^ d) : ℚ) / 10 ^ d

/-- Python `int(q)`: truncation toward zero. -/
def truncInt (q : ℚ) : ℤ :=
  if q < 0 then -⌊-q⌋ else ⌊q⌋

/-- `calculate_metric` from `data_utils.py` (lines 18-31; the same function
with the same fallthrough appears in `streamlit_ncc_sis.py` lines 184-199):
zero-row guard, then dispatch on the metric name, with a final
`return 0.0` for any unrecognized metric. -/
def calculate_metric_du (df : List Row) (metric : String) : ℚ :=
  if df.length = 0 then 0
  else if metric = "NCC" then pyRound 2 (colSum Row.NCC df)
  else if metric = "NCC_PY" then pyRound 2 (colSum Row.NCC_PY df)
  else if metric = "YoY_Growth" then
    if colSum Row.NCC_PY df ≠ 0 then
      pyRound 1 ((colSum Row.NCC df - colSum Row.NCC_PY df) / colSum Row.NCC_PY df * 100)
    else 0
  else if metric = "Avg_NCC" then pyRound 2 (colSum Row.NCC df / df.length)
  else 0

/-- `calculate_metric` from `streamlit_app.py` (lines 241-248): the `"OTP"`
metric is `round(np.average(df.OTP, weights=df.Trips), 1)` guarded by the
zero-row / zero-weight check, and every other metric name takes the `else`
branch `int(df.Trips.sum())`. -/
def calculate_metric_app (df : List Row) (metric : String) : ℚ :=
  if metric = "OTP" then
    if df.length = 0 ∨ colSum Row.Trips df = 0 then 0
    else pyRound 1 ((df.map (fun r => r.OTP * r.Trips)).sum / colSum Row.Trips df)
  else ((truncInt (colSum Row.Trips df) : ℤ) : ℚ)

/-- `get_color` from `data_utils.py` (lines 34-53): normalized score with a
0.5 fallback when `max = min`, an absolute-threshold branch for
`"YoY_Growth"`, and the 0.7 / 0.5 / 0.3 normalized bands otherwise. -/
def get_color_du (value min_val max_val : ℚ) (metric : String) : String :=
  if metric = "YoY_Growth" then
    if value ≥ 10 then "#1B5E3F"
    else if value ≥ 0 then "#2D8B5E"
    else if value ≥ -10 then "#F59E0B"
    else "#DC2626"
  else if (if max_val = min_val then (1 : ℚ)/2 else (value - min_val) / (max_val - min_val)) ≥ 7/10 then "#1B5E3F"
  else if (if max_val = min_val then (1 : ℚ)/2 else (value - min_val) / (max_val - min_val)) ≥ 1/2 then "#2D8B5E"
  else if (if max_val = min_val then (1 : ℚ)/2 else (value - min_val) / (max_val - min_val)) ≥ 3/10 then "#F59E0B"
  else "#DC2626"

/-- `get_color` from `streamlit_app.py` (lines 251-265): the normalized
banding only, with no metric parameter. -/
def get_color_app (value min_val max_val : ℚ) : String :=
  if (if max_val = min_val then (1 : ℚ)/2 else (value - min_val) / (max_val - min_val)) ≥ 7/10 then "#1B5E3F"
  else if (if max_val = min_val then (1 : ℚ)/2 else (value - min_val) / (max_val - min_val)) ≥ 1/2 then "#2D8B5E"
  else if (if max_val = min_val then (1 : ℚ)/2 else (value - min_val) / (max_val - min_val)) ≥ 3/10 then "#F59E0B"
  else "#DC2626"

/-- Distinct values of a list in order of first occurrence. -/
def dedupFirst : List String → List String
  | [] => []
  | x :: xs => x :: (dedupFirst xs).filter (fun y => y ≠ x)

/-- The group keys of `data.groupby(dim)`: the distinct non-null values of
the `dim` column.  pandas `groupby` uses its default `dropna=True`, so rows
whose grouping value is null are dropped and appear in no group. -/
def keysOf (dim : String) (data : List Row) : List String :=
  dedupFirst (data.filterMap (fun r => r.dims dim))

/-- `list(data.groupby(dim))`: one `(key, subframe)` pair per distinct
non-null key.  Key order is first-occurrence order here; pandas returns
keys sorted, but `build_level` re-sorts its output by value, so group order
only affects the order of value ties. -/
def groupby (dim : String) (data : List Row) : List (String × List Row) :=
  (keysOf dim data).map (fun k => (k, data.filter (fun r => r.dims dim = some k)))

/-- The `AggregateNode` dictionary produced by `build_hierarchy`: a leaf
level node has no `children` key in Python, which every consumer treats as
an empty list, so `children` is always present here. -/
inductive Node where
  | mk (name dimension : String) (value : ℚ) (color : String) (count : ℕ)
       (children : List Node)

def Node.name : Node → String
  | .mk n _ _ _ _ _ => n

def Node.dimension : Node → String
  | .mk _ d _ _ _ _ => d

def Node.value : Node → ℚ
  | .mk _ _ v _ _ _ => v

def Node.color : Node → String
  | .mk _ _ _ c _ _ => c

def Node.count : Node → ℕ
  | .mk _ _ _ _ k _ => k

def Node.children : Node → List Node
  | .mk _ _ _ _ _ c => c

/-- The comparison used by `sorted(children, key=lambda x: x["value"],
reverse=True)`: descending by `value`. -/
def valueDesc (a b : Node) : Prop := b.value ≤ a.value

instance : DecidableRel valueDesc :=
  fun a b => inferInstanceAs (Decidable (b.value ≤ a.value))

instance : IsTotal Node valueDesc :=
  ⟨fun a b => le_total b.value a.value⟩

instance : IsTrans Node valueDesc :=
  ⟨fun _ _ _ h1 h2 => le_trans h2 h1⟩

/-- Python `min(values)` for a non-empty list (`dflt` is the value the code
substitutes when the list is empty). -/
def minList (l : List ℚ) (dflt : ℚ) : ℚ :=
  match l with
  | [] => dflt
  | v :: vs => vs.foldl min v

/-- Python `max(values)` for a non-empty list. -/
def maxList (l : List ℚ) (dflt : ℚ) : ℚ :=
  match l with
  | [] => dflt
  | v :: vs => vs.foldl max v

/-- The recursive `build_level` shared by `data_utils.py` (lines 58-77),
`streamlit_app.py` (lines 271-300) and `streamlit_ncc_sis.py` (lines
230-256); the three copies differ only in which `calculate_metric` and
`get_color` they call, abstracted here as `calcf` and `colorf`.  Empty
dimension list or empty data returns `[]`; otherwise one node per group
of `data.groupby(d)`, with `values`, `min_val`, `max_val` computed over
the sibling groups, recursion into the remaining dimensions, and a final
stable sort by `value` descending.  Python's stable sort and the stable
`List.insertionSort` compute the same list. -/
def build_level (calcf : List Row → ℚ) (colorf : ℚ → ℚ → ℚ → String) :
    List String → List Row → List Node
  | [], _ => []
  | d :: rest, data =>
    if data.length = 0 then []
    else
      List.insertionSort valueDesc
        (((groupby d data).zip ((groupby d data).map (fun g => calcf g.2))).map
          (fun gv =>
            Node.mk gv.1.1 d gv.2
              (colorf gv.2 (minList ((groupby d data).map (fun g => calcf g.2)) 0)
                (maxList ((groupby d data).map (fun g => calcf g.2)) 1))
              gv.1.2.length
              (build_level calcf colorf rest gv.1.2)))

/-- `build_hierarchy` from `data_utils.py` (lines 56-87): root node named
"Total NCC" / "Total" with hard-coded color `#1B5E3F`, value
`calculate_metric(df, metric)`, count `len(df)`, children from
`build_level`. -/
def build_hierarchy_du (df : List Row) (dims : List String) (metric : String) : Node :=
  Node.mk "Total NCC" "Total" (calculate_metric_du df metric) "#1B5E3F" df.length
    (build_level (fun g => calculate_metric_du g metric)
      (fun v mn mx => get_color_du v mn mx metric) dims df)

/-- `build_hierarchy` from `streamlit_app.py` (lines 268-312): root node
named "Total" / "All Data" with hard-coded color `#1B5E3F`. -/
def build_hierarchy_app (df : List Row) (dims : List String) (metric : String) : Node :=
  Node.mk "Total" "All Data" (calculate_metric_app df metric) "#1B5E3F" df.length
    (build_level (fun g => calculate_metric_app g metric)
      (fun v mn mx => get_color_app v mn mx) dims df)

mutual

/-- Every node of the tree rooted at `n` (the node itself first). -/
def allNodes : Node → List Node
  | .mk n d v c k cs => .mk n d v c k cs :: allNodesList cs

/-- Every node of every tree in the list. -/
def allNodesList : List Node → List Node
  | [] => []
  | n :: ns => allNodes n ++ allNodesList ns

end

lemma build_level_cons (calcf : List Row → ℚ) (colorf : ℚ → ℚ → ℚ → String)
    (d : String) (rest : List String) (data : List Row) :
    build_level calcf colorf (d :: rest) data =
      if data.length = 0 then []
      else
        List.insertionSort valueDesc
          (((groupby d data).zip ((groupby d data).map (fun g => calcf g.2))).map
            (fun gv =>
              Node.mk gv.1.1 d gv.2
                (colorf gv.2 (minList ((groupby d data).map (fun g => calcf g.2)) 0)
                  (maxList ((groupby d data).map (fun g => calcf g.2)) 1))
                gv.1.2.length
                (build_level calcf colorf rest gv.1.2))) := by
  simp only [build_level]

lemma build_level_cons_of_ne (calcf : List Row → ℚ) (colorf : ℚ → ℚ → ℚ → String)
    (d : String) (rest : List String) (data : List Row) (h : data.length ≠ 0) :
    build_level calcf colorf (d :: rest) data =
      List.insertionSort valueDesc
        ((groupby d data).map (fun g =>
          Node.mk g.1 d (calcf g.2)
            (colorf (calcf g.2) (minList ((groupby d data).map (fun g2 => calcf g2.2)) 0)
              (maxList ((groupby d data).map (fun g2 => calcf g2.2)) 1))
            g.2.length
            (build_level calcf colorf rest g.2))) := by
  rw [build_level_cons, if_neg h]
  congr 1
  rw [show (groupby d data).zip ((groupby d data).map fun g => calcf g.2)
        = (groupby d data).map (fun g => (g, calcf g.2)) by
      simpa using List.zip_map' id (fun g => calcf g.2) (groupby d data)]
  rw [List.map_map]
  rfl

lemma build_level_nil_data (calcf : List Row → ℚ) (colorf : ℚ → ℚ → ℚ → String)
    (dims : List String) : build_level calcf colorf dims [] = [] := by
  cases dims with
  | nil => rfl
  | cons d rest => rw [build_level_cons]; simp

lemma dedupFirst_nodup (l : List String) : (dedupFirst l).Nodup := by
  induction l with
  | nil => simp [dedupFirst]
  | cons x xs ih =>
    simp only [dedupFirst]
    refine List.Nodup.cons ?_ (ih.filter _)
    simp [List.mem_filter]

lemma mem_dedupFirst {a : String} : ∀ {l : List String}, a ∈ dedupFirst l ↔ a ∈ l := by
  intro l
  induction l with
  | nil => simp [dedupFirst]
  | cons x xs ih =>
    simp only [dedupFirst, List.mem_cons, List.mem_filter, ih]
    by_cases hax : a = x
    · simp [hax]
    · simp [hax]

lemma sum_map_add_nat {α : Type} (f g : α → ℕ) (l : List α) :
    (l.map (fun x => f x + g x)).sum = (l.map f).sum + (l.map g).sum := by
  induction l with
  | nil => simp
  | cons x xs ih => simp [ih]; omega

lemma sum_map_ite_count (k₀ : String) (ks : List String) :
    (ks.map (fun k => if k₀ = k then 1 else 0)).sum = ks.count k₀ := by
  induction ks with
  | nil => simp
  | cons x xs ih =>
    simp only [List.map_cons, List.sum_cons, ih, List.count_cons]
    by_cases h : k₀ = x
    · simp [h, Nat.add_comm]
    · simp [h, Ne.symm h]

lemma filter_length_partition (key : Row → Option String) (ks : List String)
    (hno : ks.Nodup) :
    ∀ data : List Row, (∀ r ∈ data, ∃ k ∈ ks, key r = some k) →
      (ks.map (fun k => (data.filter (fun r => key r = some k)).length)).sum
        = data.length := by
  intro data
  induction data with
  | nil => intro _; simp
  | cons r rest ih =>
    intro hcov
    have hrest := ih (fun r2 hr2 => hcov r2 (List.mem_cons_of_mem _ hr2))
    obtain ⟨k₀, hk₀, hkey⟩ := hcov r (List.mem_cons_self _ _)
    have hlen : ∀ k : String, ((r :: rest).filter (fun r2 => key r2 = some k)).length
        = (if key r = some k then 1 else 0)
          + (rest.filter (fun r2 => key r2 = some k)).length := by
      intro k
      by_cases h : key r = some k
      · simp [List.filter_cons, h, Nat.add_comm]
      · simp [List.filter_cons, h]
    calc (ks.map fun k => ((r :: rest).filter (fun r2 => key r2 = some k)).length).sum
        = (ks.map fun k => (if key r = some k then 1 else 0)
            + (rest.filter (fun r2 => key r2 = some k)).length).sum := by
          exact congrArg List.sum (List.map_congr_left (fun k _ => hlen k))
      _ = (ks.map fun k => if key r = some k then 1 else 0).sum
            + (ks.map fun k => (rest.filter (fun r2 => key r2 = some k)).length).sum :=
          sum_map_add_nat _ _ _
      _ = 1 + rest.length := by
          rw [hrest]
          congr 1
          have heach : ∀ k ∈ ks, (if key r = some k then (1:ℕ) else 0)
              = (if k₀ = k then 1 else 0) := by
            intro k _
            rw [hkey]
            by_cases h : k₀ = k
            · simp [h]
            · simp [h]
          rw [List.map_congr_left heach, sum_map_ite_count]
          exact List.count_eq_one_of_mem hno hk₀
      _ = (r :: rest).length := by simp [Nat.add_comm]

lemma mem_keysOf {d : String} {data : List Row} {k : String} :
    k ∈ keysOf d data ↔ ∃ r ∈ data, r.dims d = some k := by
  unfold keysOf
  rw [mem_dedupFirst, List.mem_filterMap]

lemma groupby_count_sum (d : String) (data : List Row)
    (hall : ∀ r ∈ data, (r.dims d).isSome = true) :
    ((groupby d data).map (fun g => g.2.length)).sum = data.length := by
  have hcov : ∀ r ∈ data, ∃ k ∈ keysOf d data, r.dims d = some k := by
    intro r hr
    obtain ⟨k, hk⟩ := Option.isSome_iff_exists.mp (hall r hr)
    exact ⟨k, mem_keysOf.mpr ⟨r, hr, hk⟩, hk⟩
  have := filter_length_partition (fun r => r.dims d) (keysOf d data)
    (dedupFirst_nodup _) data hcov
  unfold groupby
  rw [List.map_map]
  exact this

lemma mem_allNodesList {n : Node} :
    ∀ {l : List Node}, n ∈ allNodesList l ↔ ∃ m ∈ l, n ∈ allNodes m := by
  intro l
  induction l with
  | nil => simp [allNodesList]
  | cons m ms ih =>
    simp only [allNodesList, List.mem_append, ih, List.mem_cons]
    constructor
    · rintro (h | ⟨m2, hm2, hn⟩)
      · exact ⟨m, Or.inl rfl, h⟩
      · exact ⟨m2, Or.inr hm2, hn⟩
    · rintro ⟨m2, rfl | hm2, hn⟩
      · exact Or.inl hn
      · exact Or.inr ⟨m2, hm2, hn⟩

lemma mem_allNodesList_of_perm {l l' : List Node} (h : l.Perm l') {n : Node} :
    n ∈ allNodesList l ↔ n ∈ allNodesList l' := by
  rw [mem_allNodesList, mem_allNodesList]
  constructor
  · rintro ⟨m, hm, hn⟩; exact ⟨m, h.mem_iff.mp hm, hn⟩
  · rintro ⟨m, hm, hn⟩; exact ⟨m, h.mem_iff.mpr hm, hn⟩

lemma build_level_count_sum (calcf : List Row → ℚ) (colorf : ℚ → ℚ → ℚ → String)
    (d : String) (rest : List String) (data : List Row)
    (hall : ∀ r ∈ data, (r.dims d).isSome = true) :
    ((build_level calcf colorf (d :: rest) data).map Node.count).sum = data.length := by
  by_cases h : data.length = 0
  · rw [build_level_cons, if_pos h]
    simpa using h.symm
  · rw [build_level_cons_of_ne calcf colorf d rest data h]
    rw [List.Perm.sum_eq ((List.perm_insertionSort valueDesc _).map Node.count)]
    rw [List.map_map]
    exact groupby_count_sum d data hall

lemma mem_groupby_sub {d : String} {data : List Row} {g : String × List Row}
    (hg : g ∈ groupby d data) : ∀ r ∈ g.2, r ∈ data := by
  intro r hr
  unfold groupby at hg
  obtain ⟨k, _, rfl⟩ := List.mem_map.mp hg
  exact (List.mem_filter.mp hr).1

lemma build_level_partition_ok (calcf : List Row → ℚ) (colorf : ℚ → ℚ → ℚ → String) :
    ∀ (dims : List String) (data : List Row),
      (∀ r ∈ data, ∀ d ∈ dims, (r.dims d).isSome = true) →
      ∀ n ∈ allNodesList (build_level calcf colorf dims data),
        n.children = [] ∨ (n.children.map Node.count).sum = n.count := by
  intro dims
  induction dims with
  | nil =>
    intro data _ n hn
    simp [build_level, allNodesList] at hn
  | cons d rest ih =>
    intro data hall n hn
    by_cases h : data.length = 0
    · rw [build_level_cons, if_pos h] at hn
      simp [allNodesList] at hn
    · rw [build_level_cons_of_ne calcf colorf d rest data h,
        mem_allNodesList_of_perm (List.perm_insertionSort valueDesc _),
        mem_allNodesList] at hn
      obtain ⟨m, hm, hnm⟩ := hn
      obtain ⟨g, hg, rfl⟩ := List.mem_map.mp hm
      have hallg : ∀ r ∈ g.2, ∀ d2 ∈ rest, (r.dims d2).isSome = true :=
        fun r hr d2 hd2 => hall r (mem_groupby_sub hg r hr) d2 (List.mem_cons_of_mem _ hd2)
      simp only [allNodes, List.mem_cons] at hnm
      rcases hnm with rfl | hnm
      · cases rest with
        | nil => exact Or.inl rfl
        | cons d2 rs =>
          right
          exact build_level_count_sum calcf colorf d2 rs g.2
            (fun r hr => hallg r hr d2 (List.mem_cons_self _ _))
      · exact ih g.2 hallg n hnm

lemma build_level_sorted_out (calcf : List Row → ℚ) (colorf : ℚ → ℚ → ℚ → String)
    (dims : List String) (data : List Row) :
    List.Sorted valueDesc (build_level calcf colorf dims data) := by
  cases dims with
  | nil => simp [build_level]
  | cons d rest =>
    rw [build_level_cons]
    by_cases h : data.length = 0
    · rw [if_pos h]; simp
    · rw [if_neg h]; exact List.sorted_insertionSort valueDesc _

lemma build_level_children_sorted (calcf : List Row → ℚ) (colorf : ℚ → ℚ → ℚ → String) :
    ∀ (dims : List String) (data : List Row),
      ∀ n ∈ allNodesList (build_level calcf colorf dims data),
        List.Sorted valueDesc n.children := by
  intro dims
  induction dims with
  | nil =>
    intro data n hn
    simp [build_level, allNodesList] at hn
  | cons d rest ih =>
    intro data n hn
    by_cases h : data.length = 0
    · rw [build_level_cons, if_pos h] at hn
      simp [allNodesList] at hn
    · rw [build_level_cons_of_ne calcf colorf d rest data h,
        mem_allNodesList_of_perm (List.perm_insertionSort valueDesc _),
        mem_allNodesList] at hn
      obtain ⟨m, hm, hnm⟩ := hn
      obtain ⟨g, _, rfl⟩ := List.mem_map.mp hm
      simp only [allNodes, List.mem_cons] at hnm
      rcases hnm with rfl | hnm
      · exact build_level_sorted_out calcf colorf rest g.2
      · exact ih g.2 n hnm

/-- Example row: dimension value "A" everywhere, NCC 1, OTP 60, Trips 100. -/
def rowA : Row := ⟨fun _ => some "A", 1, 1, 60, 100⟩

/-- Example row: dimension value "B" everywhere, NCC 2, OTP 80, Trips 300. -/
def rowB : Row := ⟨fun _ => some "B", 2, 1, 80, 300⟩

/-- Example row: dimension value "C" everywhere, OTP 80, Trips 200. -/
def rowC : Row := ⟨fun _ => some "C", 3, 1, 80, 200⟩

/-- Example row whose dimension cells are all null (NaN), with NCC_PY and
Trips equal to 0. -/
def rowNull : Row := ⟨fun _ => none, 5, 0, 70, 0⟩

/-- Example row with zero Trips and zero NCC_PY but non-null dimensions. -/
def rowZ : Row := ⟨fun _ => some "Z", 1, 0, 70, 0⟩

/-- **C1** (corrected): the root's `count` always equals `len(D)`, and the
children of any node with children partition that node's rows — the sum of
the children's `count` equals the parent's `count` — *provided no row has a
null/NaN value in a selected dimension*.  (The claim's parenthetical that
null dimension values form their own group is false: pandas `groupby`
drops them, see `C1_counterexample`.) -/
theorem C1_partition_invariant :
    (∀ (df : List Row) (dims : List String) (metric : String),
        (build_hierarchy_du df dims metric).count = df.length
      ∧ (build_hierarchy_app df dims metric).count = df.length)
  ∧ (∀ (df : List Row) (dims : List String) (metric : String),
      (∀ r ∈ df, ∀ d ∈ dims, (r.dims d).isSome = true) →
        (∀ n ∈ allNodes (build_hierarchy_du df dims metric),
          n.children ≠ [] → (n.children.map Node.count).sum = n.count)
      ∧ (∀ n ∈ allNodes (build_hierarchy_app df dims metric),
          n.children ≠ [] → (n.children.map Node.count).sum = n.count)) := by
  constructor
  · intro df dims metric
    exact ⟨rfl, rfl⟩
  · intro df dims metric hall
    constructor
    · intro n hn hne
      simp only [build_hierarchy_du, allNodes, List.mem_cons] at hn
      rcases hn with rfl | hn
      · cases dims with
        | nil => exact absurd rfl hne
        | cons d rest =>
          show ((build_level (fun g => calculate_metric_du g metric)
              (fun v mn mx => get_color_du v mn mx metric) (d :: rest) df).map
                Node.count).sum = df.length
          exact build_level_count_sum _ _ d rest df
            (fun r hr => hall r hr d (List.mem_cons_self _ _))
      · rcases build_level_partition_ok _ _ dims df hall n hn with h | h
        · exact absurd h hne
        · exact h
    · intro n hn hne
      simp only [build_hierarchy_app, allNodes, List.mem_cons] at hn
      rcases hn with rfl | hn
      · cases dims with
        | nil => exact absurd rfl hne
        | cons d rest =>
          show ((build_level (fun g => calculate_metric_app g metric)
              (fun v mn mx => get_color_app v mn mx) (d :: rest) df).map
                Node.count).sum = df.length
          exact build_level_count_sum _ _ d rest df
            (fun r hr => hall r hr d (List.mem_cons_self _ _))
      · rcases build_level_partition_ok _ _ dims df hall n hn with h | h
        · exact absurd h hne
        · exact h

/-- Example row sharing dimension value "A" with `rowA`, NCC 2. -/
def rowA2 : Row := ⟨fun _ => some "A", 2, 1, 80, 300⟩

/-- Witness for C1 at a concrete input: two rows in one group under one
dimension; the child's count equals the root's count 2. -/
theorem C1_partition_invariant_witness :
    ((build_hierarchy_du [rowA, rowA2] ["D"] "NCC").children.map Node.count).sum
      = (build_hierarchy_du [rowA, rowA2] ["D"] "NCC").count := by
  have hall : ∀ r ∈ [rowA, rowA2], ∀ d ∈ ["D"], (r.dims d).isSome = true := by decide
  have hchild : (build_hierarchy_du [rowA, rowA2] ["D"] "NCC").children ≠ [] :=
    List.length_pos.mp (by decide)
  exact (C1_partition_invariant.2 [rowA, rowA2] ["D"] "NCC" hall).1 _
    (by simp only [build_hierarchy_du, allNodes]
        exact List.mem_cons_self _ _) hchild

/-- Counterexample refuting C1 as stated: with a row whose dimension value
is null, pandas `groupby` (default `dropna=True`) drops the row instead of
giving it its own group, so the root has a non-empty children list whose
counts sum to 1 while the root's count is 2. -/
theorem C1_counterexample :
    ((build_hierarchy_du [rowA, rowNull] ["D"] "NCC").children.map Node.count).sum = 1
  ∧ (build_hierarchy_du [rowA, rowNull] ["D"] "NCC").count = 2
  ∧ 0 < (build_hierarchy_du [rowA, rowNull] ["D"] "NCC").children.length := by
  refine ⟨by decide, rfl, by decide⟩

/-- **C2** (confirmed): in both `build_hierarchy` variants, every node's
children list is sorted by `value` in descending order:
`children[i].value ≥ children[i+1].value` for every valid index. -/
theorem C2_children_sorted_desc :
    ∀ (df : List Row) (dims : List String) (metric : String),
      (∀ n ∈ allNodes (build_hierarchy_du df dims metric),
        ∀ i : ℕ, ∀ h : i + 1 < n.children.length,
          (n.children.get ⟨i + 1, h⟩).value
            ≤ (n.children.get ⟨i, Nat.lt_of_succ_lt h⟩).value)
    ∧ (∀ n ∈ allNodes (build_hierarchy_app df dims metric),
        ∀ i : ℕ, ∀ h : i + 1 < n.children.length,
          (n.children.get ⟨i + 1, h⟩).value
            ≤ (n.children.get ⟨i, Nat.lt_of_succ_lt h⟩).value) := by
  have key : ∀ (m : Node), List.Sorted valueDesc m.children →
      ∀ i : ℕ, ∀ h : i + 1 < m.children.length,
        (m.children.get ⟨i + 1, h⟩).value
          ≤ (m.children.get ⟨i, Nat.lt_of_succ_lt h⟩).value := by
    intro m hs i h
    exact List.pairwise_iff_get.mp hs ⟨i, Nat.lt_of_succ_lt h⟩ ⟨i + 1, h⟩
      (Nat.lt_succ_self i)
  intro df dims metric
  constructor
  · intro n hn
    simp only [build_hierarchy_du, allNodes, List.mem_cons] at hn
    rcases hn with rfl | hn
    · exact key _ (build_level_sorted_out _ _ dims df)
    · exact key n (build_level_children_sorted _ _ dims df n hn)
  · intro n hn
    simp only [build_hierarchy_app, allNodes, List.mem_cons] at hn
    rcases hn with rfl | hn
    · exact key _ (build_level_sorted_out _ _ dims df)
    · exact key n (build_level_children_sorted _ _ dims df n hn)

/-- Witness for C2 at a concrete input: a two-children root; the second
child's value is at most the first child's value. -/
theorem C2_children_sorted_desc_witness :
    ∃ h : 1 < (build_hierarchy_du [rowA, rowB] ["D"] "Bogus").children.length,
      ((build_hierarchy_du [rowA, rowB] ["D"] "Bogus").children.get ⟨1, h⟩).value
        ≤ ((build_hierarchy_du [rowA, rowB] ["D"] "Bogus").children.get
            ⟨0, Nat.lt_of_succ_lt h⟩).value := by
  have h : 1 < (build_hierarchy_du [rowA, rowB] ["D"] "Bogus").children.length := by
    decide
  exact ⟨h, (C2_children_sorted_desc [rowA, rowB] ["D"] "Bogus").1 _
    (by simp only [build_hierarchy_du, allNodes]
        exact List.mem_cons_self _ _) 0 h⟩

lemma calculate_metric_du_nil (metric : String) : calculate_metric_du [] metric = 0 := by
  simp [calculate_metric_du]

lemma calculate_metric_app_nil (metric : String) : calculate_metric_app [] metric = 0 := by
  by_cases h : metric = "OTP" <;>
    simp [calculate_metric_app, h, colSum, truncInt]

/-- **C3** (confirmed): every degenerate aggregation resolves to the
sentinel 0 — a zero-row dataset, the weighted average with zero weight
sum, and the ratio metric with zero denominator all return 0 — and
`build_hierarchy` on an empty dataset returns a root with value 0, count 0
and no children, in both variants. -/
theorem C3_degenerate_sentinel :
    (∀ metric : String, calculate_metric_du [] metric = 0)
  ∧ (∀ metric : String, calculate_metric_app [] metric = 0)
  ∧ (∀ df : List Row, colSum Row.Trips df = 0 → calculate_metric_app df "OTP" = 0)
  ∧ (∀ df : List Row, colSum Row.NCC_PY df = 0 → calculate_metric_du df "YoY_Growth" = 0)
  ∧ (∀ (dims : List String) (metric : String),
        (build_hierarchy_du [] dims metric).value = 0
      ∧ (build_hierarchy_du [] dims metric).count = 0
      ∧ (build_hierarchy_du [] dims metric).children = []
      ∧ (build_hierarchy_app [] dims metric).value = 0
      ∧ (build_hierarchy_app [] dims metric).count = 0
      ∧ (build_hierarchy_app [] dims metric).children = []) := by
  refine ⟨calculate_metric_du_nil, calculate_metric_app_nil, ?_, ?_, ?_⟩
  · intro df h
    simp [calculate_metric_app, h]
  · intro df h
    by_cases hl : df.length = 0 <;> simp [calculate_metric_du, hl, h]
  · intro dims metric
    refine ⟨?_, rfl, ?_, ?_, rfl, ?_⟩
    · show calculate_metric_du [] metric = 0
      exact calculate_metric_du_nil metric
    · show build_level _ _ dims [] = []
      exact build_level_nil_data _ _ dims
    · show calculate_metric_app [] metric = 0
      exact calculate_metric_app_nil metric
    · show build_level _ _ dims [] = []
      exact build_level_nil_data _ _ dims

/-- Witness for C3 at concrete inputs: a dataset whose Trips sum and
NCC_PY sum are 0 gives 0 for the weighted-average and ratio metrics. -/
theorem C3_degenerate_sentinel_witness :
    calculate_metric_app [rowZ] "OTP" = 0 ∧ calculate_metric_du [rowZ] "YoY_Growth" = 0 :=
  ⟨C3_degenerate_sentinel.2.2.1 [rowZ] (by norm_num [colSum, rowZ]),
   C3_degenerate_sentinel.2.2.2.1 [rowZ] (by norm_num [colSum, rowZ])⟩

/-- **C10** (confirmed): both `build_hierarchy` variants hard-code the
root's color to `"#1B5E3F"` — for every dataset, dimension list and
metric, independent of the root's value. -/
theorem C10_root_color_constant :
    ∀ (df : List Row) (dims : List String) (metric : String),
      (build_hierarchy_du df dims metric).color = "#1B5E3F"
    ∧ (build_hierarchy_app df dims metric).color = "#1B5E3F" :=
  fun _ _ _ => ⟨rfl, rfl⟩

/-- **C4** (corrected): for a non-empty row subset with non-zero weight
sum, the `"OTP"` metric equals the weighted average
`sum(OTP*Trips)/sum(Trips)` *rounded to one decimal place* (Python
`round(..., 1)`), not the exact quotient ­— see `C4_counterexample`; on the
claim's two rows (otp 60, trips 100) and (otp 80, trips 300) the rounding
is the identity and the root value of `build_hierarchy` is exactly 75. -/
theorem C4_weighted_average :
    (∀ df : List Row, df ≠ [] → colSum Row.Trips df ≠ 0 →
        calculate_metric_app df "OTP"
          = pyRound 1 ((df.map (fun r => r.OTP * r.Trips)).sum / colSum Row.Trips df))
  ∧ (∀ dims : List String, (build_hierarchy_app [rowA, rowB] dims "OTP").value = 75) := by
  constructor
  · intro df hne hw
    rw [calculate_metric_app, if_pos rfl, if_neg]
    push_neg
    exact ⟨fun h => hne (List.length_eq_zero.mp h), hw⟩
  · intro dims
    show calculate_metric_app [rowA, rowB] "OTP" = 75
    rw [calculate_metric_app, if_pos rfl, if_neg (by norm_num [colSum, rowA, rowB])]
    norm_num [colSum, rowA, rowB, pyRound, roundHalfEven]

/-- Witness for C4 at a concrete input: the two claim rows, where the
weighted average is 75 exactly. -/
theorem C4_weighted_average_witness :
    calculate_metric_app [rowA, rowB] "OTP"
      = pyRound 1 (([rowA, rowB].map (fun r => r.OTP * r.Trips)).sum
          / colSum Row.Trips [rowA, rowB]) :=
  C4_weighted_average.1 [rowA, rowB] (by simp) (by norm_num [colSum, rowA, rowB])

/-- Counterexample refuting C4 as stated: on rows (otp 60, trips 100) and
(otp 80, trips 200) the exact weighted average is 220/3 = 73.33…, but the
code rounds to one decimal and returns 73.3, so the computed metric does
not equal `sum(OTP*Trips)/sum(Trips)`. -/
theorem C4_counterexample :
    calculate_metric_app [rowA, rowC] "OTP" = 733/10
  ∧ (([rowA, rowC].map (fun r => r.OTP * r.Trips)).sum
      / colSum Row.Trips [rowA, rowC]) = 220/3
  ∧ calculate_metric_app [rowA, rowC] "OTP"
      ≠ (([rowA, rowC].map (fun r => r.OTP * r.Trips)).sum
          / colSum Row.Trips [rowA, rowC]) := by
  have h1 : calculate_metric_app [rowA, rowC] "OTP" = 733/10 := by
    rw [calculate_metric_app, if_pos rfl, if_neg (by norm_num [colSum, rowA, rowC])]
    norm_num [colSum, rowA, rowC, pyRound, roundHalfEven]
  have h2 : (([rowA, rowC].map (fun r => r.OTP * r.Trips)).sum
      / colSum Row.Trips [rowA, rowC]) = 220/3 := by
    norm_num [colSum, rowA, rowC]
  refine ⟨h1, h2, ?_⟩
  rw [h1, h2]
  norm_num

/-- **C6** (corrected): `calculate_metric` does *not* fail fast on an
unrecognized metric name: the `data_utils.py`/`streamlit_ncc_sis.py`
version falls through to `return 0.0`, and the `streamlit_app.py` version
treats every metric other than `"OTP"` as the Trips sum — neither raises.
See `C6_counterexample`. -/
theorem C6_unknown_metric_fallback :
    (∀ (df : List Row) (metric : String),
      metric ≠ "NCC" → metric ≠ "NCC_PY" → metric ≠ "YoY_Growth" → metric ≠ "Avg_NCC" →
        calculate_metric_du df metric = 0)
  ∧ (∀ (df : List Row) (metric : String), metric ≠ "OTP" →
        calculate_metric_app df metric = ((truncInt (colSum Row.Trips df) : ℤ) : ℚ)) := by
  constructor
  · intro df metric h1 h2 h3 h4
    by_cases hl : df.length = 0 <;> simp [calculate_metric_du, hl, h1, h2, h3, h4]
  · intro df metric h
    simp [calculate_metric_app, h]

/-- Witness for C6 at a concrete input: the unrecognized metric name
"Bogus" produces the defined values 0 (data_utils) and the Trips sum
(streamlit_app), no error. -/
theorem C6_unknown_metric_fallback_witness :
    calculate_metric_du [rowA] "Bogus" = 0
  ∧ calculate_metric_app [rowA] "Bogus" = ((truncInt (colSum Row.Trips [rowA]) : ℤ) : ℚ) :=
  ⟨C6_unknown_metric_fallback.1 [rowA] "Bogus"
      (by decide) (by decide) (by decide) (by decide),
   C6_unknown_metric_fallback.2 [rowA] "Bogus" (by decide)⟩

/-- Counterexample refuting C6 as stated: at the unrecognized metric name
"Bogus" on a one-row dataset both `calculate_metric` variants return a
defined business value (0 resp. the Trips sum 100) instead of raising. -/
theorem C6_counterexample :
    calculate_metric_du [rowA] "Bogus" = 0 ∧ calculate_metric_app [rowA] "Bogus" = 100 := by
  constructor
  · simp [calculate_metric_du]
  · rw [calculate_metric_app, if_neg (by decide)]
    norm_num [colSum, rowA, truncInt]

/-- **C5** (confirmed): `get_color` normalizes to
`(value - min)/(max - min)` (0.5 when `max = min`) and maps the score with
inclusive lower bounds 0.7 / 0.5 / 0.3, while for the `"YoY_Growth"`
metric it applies the absolute thresholds 10 / 0 / −10 to the raw value;
in particular a score of exactly 0.7 gives the high band and exactly 0.3
the medium-low band. -/
theorem C5_color_bands :
    (∀ (v mn mx : ℚ) (metric : String), metric ≠ "YoY_Growth" →
      ∀ s : ℚ, s = (if mx = mn then (1:ℚ)/2 else (v - mn) / (mx - mn)) →
        (s ≥ 7/10 → get_color_du v mn mx metric = "#1B5E3F")
      ∧ (s < 7/10 → s ≥ 1/2 → get_color_du v mn mx metric = "#2D8B5E")
      ∧ (s < 1/2 → s ≥ 3/10 → get_color_du v mn mx metric = "#F59E0B")
      ∧ (s < 3/10 → get_color_du v mn mx metric = "#DC2626"))
  ∧ (∀ v mn mx : ℚ,
        (v ≥ 10 → get_color_du v mn mx "YoY_Growth" = "#1B5E3F")
      ∧ (v < 10 → v ≥ 0 → get_color_du v mn mx "YoY_Growth" = "#2D8B5E")
      ∧ (v < 0 → v ≥ -10 → get_color_du v mn mx "YoY_Growth" = "#F59E0B")
      ∧ (v < -10 → get_color_du v mn mx "YoY_Growth" = "#DC2626"))
  ∧ (∀ v mn mx : ℚ,
      ∀ s : ℚ, s = (if mx = mn then (1:ℚ)/2 else (v - mn) / (mx - mn)) →
        (s ≥ 7/10 → get_color_app v mn mx = "#1B5E3F")
      ∧ (s < 7/10 → s ≥ 1/2 → get_color_app v mn mx = "#2D8B5E")
      ∧ (s < 1/2 → s ≥ 3/10 → get_color_app v mn mx = "#F59E0B")
      ∧ (s < 3/10 → get_color_app v mn mx = "#DC2626"))
  ∧ get_color_app 70 0 100 = "#1B5E3F"
  ∧ get_color_app 30 0 100 = "#F59E0B"
  ∧ (∀ v mn : ℚ, get_color_app v mn mn = "#2D8B5E") := by
  refine ⟨?_, ?_, ?_, ?_, ?_, ?_⟩
  · intro v mn mx metric hm s hs
    subst hs
    rw [get_color_du, if_neg hm]
    refine ⟨fun h => ?_, fun h1 h2 => ?_, fun h1 h2 => ?_, fun h => ?_⟩
    · rw [if_pos h]
    · rw [if_neg (not_le.mpr h1), if_pos h2]
    · rw [if_neg (not_le.mpr (by linarith)), if_neg (not_le.mpr h1), if_pos h2]
    · rw [if_neg (not_le.mpr (by linarith)), if_neg (not_le.mpr (by linarith)),
        if_neg (not_le.mpr h)]
  · intro v mn mx
    rw [get_color_du, if_pos rfl]
    refine ⟨fun h => ?_, fun h1 h2 => ?_, fun h1 h2 => ?_, fun h => ?_⟩
    · rw [if_pos h]
    · rw [if_neg (not_le.mpr h1), if_pos h2]
    · rw [if_neg (not_le.mpr (by linarith)), if_neg (not_le.mpr h1), if_pos h2]
    · rw [if_neg (not_le.mpr (by linarith)), if_neg (not_le.mpr (by linarith)),
        if_neg (not_le.mpr h)]
  · intro v mn mx s hs
    subst hs
    rw [get_color_app]
    refine ⟨fun h => ?_, fun h1 h2 => ?_, fun h1 h2 => ?_, fun h => ?_⟩
    · rw [if_pos h]
    · rw [if_neg (not_le.mpr h1), if_pos h2]
    · rw [if_neg (not_le.mpr (by linarith)), if_neg (not_le.mpr h1), if_pos h2]
    · rw [if_neg (not_le.mpr (by linarith)), if_neg (not_le.mpr (by linarith)),
        if_neg (not_le.mpr h)]
  · rw [get_color_app]
    norm_num
  · rw [get_color_app]
    norm_num
  · intro v mn
    rw [get_color_app]
    norm_num

/-- Witness for C5 at concrete inputs: normalized score exactly 0.7 gives
the high band; raw value 20 under the growth metric gives the high band. -/
theorem C5_color_bands_witness :
    get_color_du 7 0 10 "NCC" = "#1B5E3F"
  ∧ get_color_du 20 0 0 "YoY_Growth" = "#1B5E3F" := by
  refine ⟨?_, ?_⟩
  · exact (C5_color_bands.1 7 0 10 "NCC" (by decide) _ rfl).1 (by norm_num)
  · exact (C5_color_bands.2.1 20 0 0).1 (by norm_num)

/-- The `config` constants of the JavaScript renderer. -/
structure LayoutConfig where
  nodeWidth : ℚ
  nodeHeight : ℚ
  levelGap : ℚ
  siblingGap : ℚ
  marginLeft : ℚ
  marginTop : ℚ
  marginBottom : ℚ
  marginRight : ℚ

/-- `config` of `streamlit_app.py`'s renderer (lines 475-483). -/
def appConfig : LayoutConfig := ⟨160, 65, 200, 12, 60, 40, 40, 160⟩

/-- `config` of `tree_visualization.py`'s renderer (lines 132-140). -/
def vizConfig : LayoutConfig := ⟨170, 68, 210, 12, 60, 40, 40, 160⟩

/-- The renderer-side tree: `calculateLayout`, `getVisibleNodes` and
`getVisibleLinks` read only each node's `expanded` flag and `children`
list. -/
inductive RTree where
  | mk (expanded : Bool) (children : List RTree)

def RTree.expanded : RTree → Bool
  | .mk e _ => e

def RTree.children : RTree → List RTree
  | .mk _ c => c

/-- A node after layout: the `x`/`y` the renderer assigned, and the laid
out children (empty when the node's children are not visible and hence
never receive coordinates). -/
inductive LTree where
  | mk (x y : ℚ) (children : List LTree)

def LTree.x : LTree → ℚ
  | .mk a _ _ => a

def LTree.y : LTree → ℚ
  | .mk _ b _ => b

def LTree.children : LTree → List LTree
  | .mk _ _ c => c

/-- `children[0].y` (0 if empty, never hit by the code). -/
def firstY (l : List LTree) : ℚ :=
  match l with
  | [] => 0
  | t :: _ => t.y

/-- `children[children.length - 1].y` (0 if empty, never hit). -/
def lastY (l : List LTree) : ℚ :=
  match l.getLast? with
  | none => 0
  | some t => t.y

mutual

/-- `layoutNode` inside `calculateLayout` (`streamlit_app.py` lines
506-527, `tree_visualization.py` lines 166-182): `n.x = x`; if the node is
expanded with children, lay the children out depth-first at
`x + levelGap` threading the shared `yOffset` cursor and set `y` to the
midpoint of the first and last child's `y`; otherwise place the node at
the cursor and advance the cursor by `nodeHeight + siblingGap`.  Returns
the laid-out node and the updated cursor. -/
def layoutNode (cfg : LayoutConfig) (x yOff : ℚ) : RTree → LTree × ℚ
  | .mk exp cs =>
    if exp = true ∧ 0 < cs.length then
      let p := layoutList cfg (x + cfg.levelGap) yOff cs
      (LTree.mk x ((firstY p.1 + lastY p.1) / 2) p.1, p.2)
    else
      (LTree.mk x yOff [], yOff + cfg.nodeHeight + cfg.siblingGap)

/-- `children.forEach(child => layoutNode(child, x + levelGap))`: lay a
sibling list out left to right, threading the cursor. -/
def layoutList (cfg : LayoutConfig) (x yOff : ℚ) : List RTree → List LTree × ℚ
  | [] => ([], yOff)
  | t :: ts =>
    let p := layoutNode cfg x yOff t
    let q := layoutList cfg x p.2 ts
    (p.1 :: q.1, q.2)

end

/-- `calculateLayout(root)`: `layoutNode(node, config.margin.left)` with
the cursor starting at 0; returns the laid tree and the final cursor
value (the `height` used by `render`). -/
def calculateLayout (cfg : LayoutConfig) (t : RTree) : LTree × ℚ :=
  layoutNode cfg cfg.marginLeft 0 t

mutual

/-- `getVisibleNodes`: the node itself, then recursively the children of
every expanded node. -/
def getVisibleNodes : RTree → List RTree
  | .mk exp cs => .mk exp cs :: (if exp = true then getVisibleNodesList cs else [])

def getVisibleNodesList : List RTree → List RTree
  | [] => []
  | t :: ts => getVisibleNodes t ++ getVisibleNodesList ts

end

mutual

/-- `getVisibleLinks`: one parent→child link per child of every expanded
node, interleaved in the JS traversal order. -/
def getVisibleLinks : RTree → List (RTree × RTree)
  | .mk exp cs => if exp = true then linksUnder (.mk exp cs) cs else []

def linksUnder (parent : RTree) : List RTree → List (RTree × RTree)
  | [] => []
  | c :: cs => ((parent, c) :: getVisibleLinks c) ++ linksUnder parent cs

end

mutual

/-- All nodes of a laid-out tree, each paired with its depth (root at
depth `k`). -/
def lnodesDepth (k : ℕ) : LTree → List (ℕ × LTree)
  | .mk a b cs => (k, .mk a b cs) :: lnodesDepthList (k + 1) cs

def lnodesDepthList (k : ℕ) : List LTree → List (ℕ × LTree)
  | [] => []
  | t :: ts => lnodesDepth k t ++ lnodesDepthList k ts

end

mutual

/-- The `y` values of the cursor-placed nodes (laid-out nodes with no laid
children) of a laid tree, in depth-first order. -/
def leafYs : LTree → List ℚ
  | .mk _ b [] => [b]
  | .mk _ _ (c :: cs) => leafYsList (c :: cs)

def leafYsList : List LTree → List ℚ
  | [] => []
  | t :: ts => leafYs t ++ leafYsList ts

end

/-- The arithmetic progression `start, start+step, …` of length `n`. -/
def prog (start step : ℚ) (n : ℕ) : List ℚ :=
  (List.range n).map (fun i : ℕ => start + (i : ℚ) * step)

lemma rtree_ind (P : RTree → Prop)
    (h : ∀ (e : Bool) (cs : List RTree), (∀ c ∈ cs, P c) → P (.mk e cs)) :
    ∀ t, P t := by
  have H : ∀ n : ℕ, ∀ t : RTree, sizeOf t ≤ n → P t := by
    intro n
    induction n with
    | zero =>
      intro t ht
      cases t with
      | mk e cs =>
        simp only [RTree.mk.sizeOf_spec] at ht
        omega
    | succ n ih =>
      intro t ht
      cases t with
      | mk e cs =>
        refine h e cs (fun c hc => ih c ?_)
        have h1 : sizeOf c < sizeOf cs := List.sizeOf_lt_of_mem hc
        simp only [RTree.mk.sizeOf_spec] at ht
        omega
  exact fun t => H (sizeOf t) t le_rfl

lemma layoutList_length (cfg : LayoutConfig) (x : ℚ) :
    ∀ (cs : List RTree) (y : ℚ), ((layoutList cfg x y cs).1).length = cs.length := by
  intro cs
  induction cs with
  | nil => intro y; rfl
  | cons t ts ih =>
    intro y
    simp only [layoutList, List.length_cons]
    rw [ih]

lemma prog_length (a s : ℚ) (n : ℕ) : (prog a s n).length = n := by
  rw [prog, List.length_map, List.length_range]

lemma prog_succ (b s : ℚ) (m : ℕ) : prog b s (m + 1) = prog b s m ++ [b + (m : ℚ) * s] := by
  simp [prog, List.range_succ]

lemma prog_append (a s : ℚ) (n1 n2 : ℕ) :
    prog a s n1 ++ prog (a + n1 * s) s n2 = prog a s (n1 + n2) := by
  induction n2 with
  | zero => simp [prog]
  | succ n2 ih =>
    have harith : (a + n1 * s) + n2 * s = a + ((n1 + n2 : ℕ) : ℚ) * s := by
      push_cast
      ring
    rw [prog_succ (a + n1 * s) s n2, ← List.append_assoc, ih,
      show n1 + (n2 + 1) = (n1 + n2) + 1 from rfl, prog_succ a s (n1 + n2), harith]

lemma layoutNode_expanded (cfg : LayoutConfig) (x y : ℚ) (e : Bool) (cs : List RTree)
    (hc : e = true ∧ 0 < cs.length) :
    layoutNode cfg x y (.mk e cs)
      = (LTree.mk x
          ((firstY (layoutList cfg (x + cfg.levelGap) y cs).1
              + lastY (layoutList cfg (x + cfg.levelGap) y cs).1) / 2)
          (layoutList cfg (x + cfg.levelGap) y cs).1,
        (layoutList cfg (x + cfg.levelGap) y cs).2) := by
  simp only [layoutNode, if_pos hc]

lemma layoutNode_leaf (cfg : LayoutConfig) (x y : ℚ) (e : Bool) (cs : List RTree)
    (hc : ¬(e = true ∧ 0 < cs.length)) :
    layoutNode cfg x y (.mk e cs)
      = (LTree.mk x y [], y + cfg.nodeHeight + cfg.siblingGap) := by
  simp only [layoutNode, if_neg hc]

lemma layoutList_x_aux (cfg : LayoutConfig) (cs : List RTree)
    (IH : ∀ c ∈ cs, ∀ (x y : ℚ) (k : ℕ),
      ∀ p ∈ lnodesDepth k ((layoutNode cfg x y c).1),
        ∃ d2 : ℕ, p.1 = k + d2 ∧ (p.2).x = x + (d2 : ℚ) * cfg.levelGap) :
    ∀ (x y : ℚ) (k : ℕ),
      ∀ p ∈ lnodesDepthList k ((layoutList cfg x y cs).1),
        ∃ d2 : ℕ, p.1 = k + d2 ∧ (p.2).x = x + (d2 : ℚ) * cfg.levelGap := by
  induction cs with
  | nil =>
    intro x y k p hp
    simp [layoutList, lnodesDepthList] at hp
  | cons c cs2 ih =>
    intro x y k p hp
    simp only [layoutList, lnodesDepthList, List.mem_append] at hp
    rcases hp with hp | hp
    · exact IH c (List.mem_cons_self _ _) x y k p hp
    · exact ih (fun c2 hc2 => IH c2 (List.mem_cons_of_mem _ hc2)) x _ k p hp

lemma layout_x_formula (cfg : LayoutConfig) :
    ∀ t : RTree, ∀ (x y : ℚ) (k : ℕ),
      ∀ p ∈ lnodesDepth k ((layoutNode cfg x y t).1),
        ∃ d2 : ℕ, p.1 = k + d2 ∧ (p.2).x = x + (d2 : ℚ) * cfg.levelGap := by
  refine rtree_ind _ ?_
  intro e cs IH x y k p hp
  by_cases hc : e = true ∧ 0 < cs.length
  · rw [layoutNode_expanded cfg x y e cs hc] at hp
    simp only [lnodesDepth, List.mem_cons] at hp
    rcases hp with rfl | hp
    · exact ⟨0, by simp, by simp [LTree.x]⟩
    · obtain ⟨d2, hd, hx⟩ := layoutList_x_aux cfg cs IH (x + cfg.levelGap) y (k + 1) p hp
      refine ⟨d2 + 1, by omega, ?_⟩
      rw [hx]
      push_cast
      ring
  · rw [layoutNode_leaf cfg x y e cs hc] at hp
    simp only [lnodesDepth, lnodesDepthList, List.mem_cons, List.not_mem_nil, or_false] at hp
    subst hp
    exact ⟨0, by simp, by simp [LTree.x]⟩

lemma leafYs_mk_of_ne_nil (a b : ℚ) (l : List LTree) (h : l ≠ []) :
    leafYs (LTree.mk a b l) = leafYsList l := by
  cases l with
  | nil => exact absurd rfl h
  | cons c cs => rfl

lemma layoutList_leaf_prog (cfg : LayoutConfig) (cs : List RTree)
    (IH : ∀ c ∈ cs, ∀ x y : ℚ,
      leafYs ((layoutNode cfg x y c).1)
          = prog y (cfg.nodeHeight + cfg.siblingGap)
              (leafYs ((layoutNode cfg x y c).1)).length
      ∧ (layoutNode cfg x y c).2
          = y + ((leafYs ((layoutNode cfg x y c).1)).length : ℚ)
              * (cfg.nodeHeight + cfg.siblingGap)) :
    ∀ x y : ℚ,
      leafYsList ((layoutList cfg x y cs).1)
          = prog y (cfg.nodeHeight + cfg.siblingGap)
              (leafYsList ((layoutList cfg x y cs).1)).length
      ∧ (layoutList cfg x y cs).2
          = y + ((leafYsList ((layoutList cfg x y cs).1)).length : ℚ)
              * (cfg.nodeHeight + cfg.siblingGap) := by
  induction cs with
  | nil =>
    intro x y
    constructor
    · rfl
    · simp [layoutList, leafYsList]
  | cons c cs2 ih =>
    intro x y
    obtain ⟨h1, h2⟩ := IH c (List.mem_cons_self _ _) x y
    obtain ⟨h3, h4⟩ := ih (fun c2 hc2 => IH c2 (List.mem_cons_of_mem _ hc2)) x
      ((layoutNode cfg x y c).2)
    simp only [layoutList, leafYsList]
    constructor
    · rw [List.length_append]
      conv_lhs => rw [h1, h3, h2]
      rw [prog_append]
      congr 1
      rw [← h2]
    · rw [h4, h2, List.length_append]
      push_cast
      ring

lemma layout_leaf_prog (cfg : LayoutConfig) :
    ∀ t : RTree, ∀ x y : ℚ,
      leafYs ((layoutNode cfg x y t).1)
          = prog y (cfg.nodeHeight + cfg.siblingGap)
              (leafYs ((layoutNode cfg x y t).1)).length
      ∧ (layoutNode cfg x y t).2
          = y + ((leafYs ((layoutNode cfg x y t).1)).length : ℚ)
              * (cfg.nodeHeight + cfg.siblingGap) := by
  refine rtree_ind _ ?_
  intro e cs IH x y
  by_cases hc : e = true ∧ 0 < cs.length
  · rw [layoutNode_expanded cfg x y e cs hc]
    have hne : (layoutList cfg (x + cfg.levelGap) y cs).1 ≠ [] := by
      intro h0
      have hlen := layoutList_length cfg (x + cfg.levelGap) cs y
      rw [h0] at hlen
      simp only [List.length_nil] at hlen
      omega
    have hred := leafYs_mk_of_ne_nil x
      ((firstY (layoutList cfg (x + cfg.levelGap) y cs).1
          + lastY (layoutList cfg (x + cfg.levelGap) y cs).1) / 2)
      (layoutList cfg (x + cfg.levelGap) y cs).1 hne
    constructor
    · show leafYs (LTree.mk _ _ _) = _
      rw [hred]
      exact (layoutList_leaf_prog cfg cs IH (x + cfg.levelGap) y).1
    · show (layoutList cfg (x + cfg.levelGap) y cs).2 = _
      rw [hred]
      exact (layoutList_leaf_prog cfg cs IH (x + cfg.levelGap) y).2
  · rw [layoutNode_leaf cfg x y e cs hc]
    constructor
    · show leafYs (LTree.mk x y []) = _
      simp [leafYs, prog, List.range_succ]
    · show y + cfg.nodeHeight + cfg.siblingGap = _
      simp [leafYs]
      ring

lemma layoutList_mid_aux (cfg : LayoutConfig) (cs : List RTree)
    (IH : ∀ c ∈ cs, ∀ (x y : ℚ) (k : ℕ),
      ∀ p ∈ lnodesDepth k ((layoutNode cfg x y c).1),
        (p.2).children ≠ [] →
          (p.2).y = (firstY (p.2).children + lastY (p.2).children) / 2) :
    ∀ (x y : ℚ) (k : ℕ),
      ∀ p ∈ lnodesDepthList k ((layoutList cfg x y cs).1),
        (p.2).children ≠ [] →
          (p.2).y = (firstY (p.2).children + lastY (p.2).children) / 2 := by
  induction cs with
  | nil =>
    intro x y k p hp
    simp [layoutList, lnodesDepthList] at hp
  | cons c cs2 ih =>
    intro x y k p hp
    simp only [layoutList, lnodesDepthList, List.mem_append] at hp
    rcases hp with hp | hp
    · exact IH c (List.mem_cons_self _ _) x y k p hp
    · exact ih (fun c2 hc2 => IH c2 (List.mem_cons_of_mem _ hc2)) x _ k p hp

lemma layout_mid_formula (cfg : LayoutConfig) :
    ∀ t : RTree, ∀ (x y : ℚ) (k : ℕ),
      ∀ p ∈ lnodesDepth k ((layoutNode cfg x y t).1),
        (p.2).children ≠ [] →
          (p.2).y = (firstY (p.2).children + lastY (p.2).children) / 2 := by
  refine rtree_ind _ ?_
  intro e cs IH x y k p hp
  by_cases hc : e = true ∧ 0 < cs.length
  · rw [layoutNode_expanded cfg x y e cs hc] at hp
    simp only [lnodesDepth, List.mem_cons] at hp
    rcases hp with rfl | hp
    · intro _
      rfl
    · exact layoutList_mid_aux cfg cs IH (x + cfg.levelGap) y (k + 1) p hp
  · rw [layoutNode_leaf cfg x y e cs hc] at hp
    simp only [lnodesDepth, lnodesDepthList, List.mem_cons, List.not_mem_nil, or_false] at hp
    subst hp
    exact fun h => absurd rfl h

/-- A collapsed leaf node of the renderer tree. -/
def collapsedLeaf : RTree := .mk false []

/-- The claim's layout scenario: an expanded root with 3 leaf children. -/
def threeLeafTree : RTree := .mk true [collapsedLeaf, collapsedLeaf, collapsedLeaf]

/-- **C7** (confirmed): every laid-out node at depth `d` has
`x = marginLeft + d·levelGap`; the `y` values of cursor-placed nodes form
the progression `0, s, 2s, …` with `s = nodeHeight + siblingGap`; a node
with visible children gets `y` equal to the midpoint of its first and last
child's `y`; and in the 3-leaf scenario there are exactly 4 visible nodes
and 3 visible links, the leaf `y`s are `0, 77, 154` (strictly increasing,
spaced by `nodeHeight + siblingGap = 77`) and the root's `y` is the
midpoint `77 = (0 + 154)/2`. -/
theorem C7_layout_algorithm :
    (∀ (cfg : LayoutConfig) (t : RTree),
      ∀ p ∈ lnodesDepth 0 ((calculateLayout cfg t).1),
        (p.2).x = cfg.marginLeft + (p.1 : ℚ) * cfg.levelGap)
  ∧ (∀ (cfg : LayoutConfig) (t : RTree),
      leafYs ((calculateLayout cfg t).1)
        = prog 0 (cfg.nodeHeight + cfg.siblingGap)
            (leafYs ((calculateLayout cfg t).1)).length)
  ∧ (∀ (cfg : LayoutConfig) (t : RTree),
      ∀ p ∈ lnodesDepth 0 ((calculateLayout cfg t).1),
        (p.2).children ≠ [] →
          (p.2).y = (firstY (p.2).children + lastY (p.2).children) / 2)
  ∧ (getVisibleNodes threeLeafTree).length = 4
  ∧ (getVisibleLinks threeLeafTree).length = 3
  ∧ ((calculateLayout appConfig threeLeafTree).1).children.map LTree.y = [0, 77, 154]
  ∧ ((0:ℚ) < 77 ∧ (77:ℚ) < 154)
  ∧ (77 : ℚ) - 0 = appConfig.nodeHeight + appConfig.siblingGap
  ∧ (154 : ℚ) - 77 = appConfig.nodeHeight + appConfig.siblingGap
  ∧ ((calculateLayout appConfig threeLeafTree).1).y = ((0 : ℚ) + 154) / 2 := by
  refine ⟨?_, ?_, ?_, by decide, by decide, ?_, by norm_num, ?_, ?_, ?_⟩
  · intro cfg t p hp
    obtain ⟨d2, hd, hx⟩ := layout_x_formula cfg t cfg.marginLeft 0 0 p hp
    rw [hx, hd]
    push_cast
    ring
  · intro cfg t
    exact (layout_leaf_prog cfg t cfg.marginLeft 0).1
  · intro cfg t p hp
    exact layout_mid_formula cfg t cfg.marginLeft 0 0 p hp
  · norm_num [calculateLayout, layoutNode, layoutList, appConfig, threeLeafTree,
      collapsedLeaf, firstY, lastY, LTree.y, LTree.children, List.getLast?]
  · norm_num [appConfig]
  · norm_num [appConfig]
  · norm_num [calculateLayout, layoutNode, layoutList, appConfig, threeLeafTree,
      collapsedLeaf, firstY, lastY, LTree.y, LTree.children, List.getLast?]

/-- Witness for C7 at a concrete input: the laid-out single collapsed
root sits at `x = marginLeft + 0·levelGap = 60`. -/
theorem C7_layout_algorithm_witness :
    (LTree.mk 60 0 []).x = appConfig.marginLeft + ((0 : ℕ) : ℚ) * appConfig.levelGap := by
  have hmem : ((0 : ℕ), LTree.mk 60 0 [])
      ∈ lnodesDepth 0 ((calculateLayout appConfig collapsedLeaf).1) := by
    norm_num [calculateLayout, layoutNode, appConfig, collapsedLeaf,
      lnodesDepth, lnodesDepthList]
  exact C7_layout_algorithm.1 appConfig collapsedLeaf ((0 : ℕ), LTree.mk 60 0 []) hmem

/-- `totalHeight` computed by `render` in `streamlit_app.py` (lines
559-567): `Math.max(400, height + margin.top + margin.bottom)` where
`height` is `calculateLayout`'s final cursor. -/
def render_totalHeight_app (t : RTree) : ℚ :=
  max 400 ((calculateLayout appConfig t).2 + appConfig.marginTop + appConfig.marginBottom)

/-- `totalWidth` in `streamlit_app.py`'s `render`: the constant 1100. -/
def render_totalWidth_app : ℚ := 1100

/-- `totalHeight` computed by `render` in `tree_visualization.py` (lines
213-221): `Math.max(500, height + margin.top + margin.bottom)`. -/
def render_totalHeight_viz (t : RTree) : ℚ :=
  max 500 ((calculateLayout vizConfig t).2 + vizConfig.marginTop + vizConfig.marginBottom)

/-- `totalWidth` in `tree_visualization.py`'s `render`: the constant 1200. -/
def render_totalWidth_viz : ℚ := 1200

/-- **C9** (corrected): the rendered height is *not* the final cursor
value but `max(400, cursor + top and bottom margins)` (500 in the
`tree_visualization.py` variant) — equivalently `max` of the floor and
`77·(number of cursor-placed nodes) + 80` — and the canvas width is the
constant 1100 (1200 in the variant), *not* a function of the deepest
visible depth. -/
theorem C9_canvas_dimensions :
    (∀ t : RTree, render_totalHeight_app t
        = max 400 (((leafYs ((calculateLayout appConfig t).1)).length : ℚ) * 77 + 80))
  ∧ (∀ t : RTree, render_totalHeight_viz t
        = max 500 (((leafYs ((calculateLayout vizConfig t).1)).length : ℚ) * 80 + 80))
  ∧ render_totalWidth_app = 1100
  ∧ render_totalWidth_viz = 1200 := by
  refine ⟨?_, ?_, rfl, rfl⟩
  · intro t
    have h := (layout_leaf_prog appConfig t appConfig.marginLeft 0).2
    rw [render_totalHeight_app, calculateLayout, h]
    congr 1
    simp only [appConfig]
    ring
  · intro t
    have h := (layout_leaf_prog vizConfig t vizConfig.marginLeft 0).2
    rw [render_totalHeight_viz, calculateLayout, h]
    congr 1
    simp only [vizConfig]
    ring

/-- Counterexample refuting C9 as stated: for a sole collapsed root the
final cursor is 77 but the rendered height is the floor value 400, and the
canvas width is the constant 1100 rather than the claimed
`deepest depth × levelGap + margins` (which would be 420 for the 1-level
expanded scenario tree). -/
theorem C9_counterexample :
    render_totalHeight_app collapsedLeaf = 400
  ∧ (calculateLayout appConfig collapsedLeaf).2 = 77
  ∧ render_totalHeight_app collapsedLeaf ≠ (calculateLayout appConfig collapsedLeaf).2
  ∧ render_totalWidth_app
      ≠ (1 : ℚ) * appConfig.levelGap + appConfig.marginLeft + appConfig.marginRight := by
  have h1 : (calculateLayout appConfig collapsedLeaf).2 = 77 := by
    norm_num [calculateLayout, layoutNode, appConfig, collapsedLeaf]
  have h2 : render_totalHeight_app collapsedLeaf = 400 := by
    rw [render_totalHeight_app, h1]
    norm_num [appConfig, max_def]
  refine ⟨h2, h1, ?_, ?_⟩
  · rw [h2, h1]
    norm_num
  · rw [render_totalWidth_app]
    norm_num [appConfig]

/-- The decimal digit character for `n < 10`. -/
def digitChar (n : ℕ) : Char := Char.ofNat (48 + n)

/-- Decimal digits of a natural number, most significant first (`fuel`
bounds the recursion and is always sufficient at `n + 1`). -/
def natDigits : ℕ → ℕ → List Char
  | 0, _ => []
  | fuel + 1, n =>
    if n < 10 then [digitChar n]
    else natDigits fuel (n / 10) ++ [digitChar (n % 10)]

/-- Decimal string of a natural number. -/
def natStr (n : ℕ) : String := ⟨natDigits (n + 1) n⟩

/-- JavaScript `x.toFixed(1)` for non-negative `x`: round `x·10` half-up
and print with one digit after the point. -/
def fixedOneOfNonneg (x : ℚ) : String :=
  natStr ((⌊x * 10 + 1/2⌋).toNat / 10) ++ "." ++ natStr ((⌊x * 10 + 1/2⌋).toNat % 10)

/-- JavaScript `val.toFixed(1)`: a leading "-" for negative values,
then the non-negative rendering of `|val|`. -/
def toFixedOne (val : ℚ) : String :=
  if val < 0 then "-" ++ fixedOneOfNonneg (-val) else fixedOneOfNonneg val

/-- The `percent` branch of `formatValue` in `streamlit_app.py` (lines
488-490): `val.toFixed(1) + "%"` — no sign is forced for non-negative
values. -/
def formatValue_percent_app (val : ℚ) : String := toFixedOne val ++ "%"

/-- The `percent` branch of `formatValue` in `tree_visualization.py`
(lines 145-151): `(val >= 0 ? "+" : "") + val.toFixed(1) + "%"`. -/
def formatValue_percent_viz (val : ℚ) : String :=
  (if val ≥ 0 then "+" else "") ++ toFixedOne val ++ "%"

/-- **C8** (corrected): only `tree_visualization.py`'s percent formatter
always renders an explicit sign — "+" for values ≥ 0, and the numeral's
own "-" for negative values; `streamlit_app.py`'s percent formatter
renders `{value:.1f}%` with no forced "+" (see `C8_counterexample`). -/
theorem C8_percent_sign :
    (∀ v : ℚ, 0 ≤ v → formatValue_percent_viz v = "+" ++ toFixedOne v ++ "%")
  ∧ (∀ v : ℚ, v < 0 → formatValue_percent_viz v = toFixedOne v ++ "%"
      ∧ (toFixedOne v).data.head? = some (Char.ofNat 45))
  ∧ (∀ v : ℚ, formatValue_percent_app v = toFixedOne v ++ "%")
  ∧ formatValue_percent_viz 0 = "+0.0%"
  ∧ formatValue_percent_viz (-5) = "-5.0%"
  ∧ formatValue_percent_app 0 = "0.0%" := by
  refine ⟨?_, ?_, fun v => rfl, ?_, ?_, ?_⟩
  · intro v hv
    rw [formatValue_percent_viz, if_pos hv]
  · intro v hv
    constructor
    · rw [formatValue_percent_viz, if_neg (not_le.mpr hv)]
      rfl
    · rw [toFixedOne, if_pos hv]
      rfl
  · rw [formatValue_percent_viz, if_pos (by norm_num), toFixedOne,
      if_neg (by norm_num), fixedOneOfNonneg]
    norm_num
    decide
  · rw [formatValue_percent_viz, if_neg (by norm_num), toFixedOne,
      if_pos (by norm_num), fixedOneOfNonneg]
    norm_num
    decide
  · rw [formatValue_percent_app, toFixedOne, if_neg (by norm_num), fixedOneOfNonneg]
    norm_num
    decide

/-- Witness for C8 at concrete inputs: the viz formatter shows "+", and a
negative value starts with the minus character. -/
theorem C8_percent_sign_witness :
    formatValue_percent_viz 2 = "+" ++ toFixedOne 2 ++ "%"
  ∧ (toFixedOne (-3)).data.head? = some (Char.ofNat 45) :=
  ⟨C8_percent_sign.1 2 (by norm_num),
   (C8_percent_sign.2.1 (-3) (by norm_num)).2⟩

/-- Counterexample refuting C8 as stated: `streamlit_app.py`'s percent
formatter renders 0 as "0.0%", not "+0.0%" — no explicit sign for zero and
positive values. -/
theorem C8_counterexample :
    formatValue_percent_app 0 = "0.0%" ∧ formatValue_percent_app 0 ≠ "+0.0%" := by
  have h : formatValue_percent_app 0 = "0.0%" := by
    rw [formatValue_percent_app, toFixedOne, if_neg (by norm_num), fixedOneOfNonneg]
    norm_num
    decide
  exact ⟨h, by rw [h]; decide⟩
